import Mathlib

/-!
Verification of the ndarray core array representation: a shallow embedding of
the shape/stride descriptor (`Core`), the array view (`ArrayBase`), the fixed
size vector type (`Vector`), and the view-construction algorithms
(`transpose`, dimension casts, `flatten`, complex-component extraction),
together with theorems settling the specified properties.

Conventions of the embedding:
* A `Vector<int,N>` (shape, stride or index tuple) is a `List Int` whose
  length is the rank.
* A `Core<N>` is a `List (Int × Int)` of per-dimension `(size, stride)`
  pairs with the head holding dimension 0.  This mirrors the C++ recursive
  inheritance chain `Core<N> : Core<N-1>`: the derived-most level stores
  dimension 0 (its `fillShape` writes slot `M-N = 0`), and the embedded
  `Core<N-1>` base subobject is exactly the tail of the list, terminating
  in the rank-0 base (`[]`).
* Data pointers are addresses in element-sized units, `Int`-valued; the
  null pointer is `0` (the source's `isEmpty()` tests `_data == 0`).
-/

set_option maxHeartbeats 1000000
set_option linter.unusedVariables false

namespace NdArray

/-- Modelled from the spec: `Manager.h` is not among the sources; per spec
section 4.2 a Manager is an opaque reference-counted ownership token with a
reference count (`getRC`) and an `isUnique()` query.  Composite managers may
answer `isUnique` on their own, so the unique report is kept as a separate
field rather than derived from `rc`. -/
structure Manager where
  rc : Int
  unique : Bool
deriving DecidableEq, Repr

/-- `Core<N>::fillShape`: recursively fill a shape vector; level `N` writes
its own `_size` into slot `M-N` (slot 0 for the derived-most level) and
recurses into the base, the rank-0 base writing nothing. -/
def fillShape : List (Int × Int) → List Int
  | [] => []
  | d :: rest => d.1 :: fillShape rest

/-- `Core<N>::fillStrides`: recursively fill a strides vector, exactly as
`fillShape` but with `_stride`. -/
def fillStrides : List (Int × Int) → List Int
  | [] => []
  | d :: rest => d.2 :: fillStrides rest

/-- `Core<N>::computeOffset(index)`: level `N` contributes
`index[M-N] * this->getStride()` plus the base's offset; the rank-0 base
(`Core<0>::computeOffset`) returns 0.  With the head of each list holding
dimension 0, each recursion level pairs one index entry with one stride. -/
def computeOffset : List Int → List Int → Int
  | i :: irest, s :: srest => i * s + computeOffset irest srest
  | _, _ => 0

/-- `Core<N>::getNumElements()`: `getSize() * Super::getNumElements()`, with
the rank-0 base returning 1. -/
def getNumElementsCore : List (Int × Int) → Int
  | [] => 1
  | d :: rest => d.1 * getNumElementsCore rest

/-- `Core<0>::getSize()` is 1; otherwise the level's own `_size`. -/
def headSize : List (Int × Int) → Int
  | [] => 1
  | d :: _ => d.1

/-- `Core<0>::getStride()` is 1; otherwise the level's own `_stride`. -/
def headStride : List (Int × Int) → Int
  | [] => 1
  | d :: _ => d.2

/-- The explicit-strides constructor chain
`Core(shape, strides, manager) : Super(shape, strides, manager),
_size(shape[M-N]), _stride(strides[M-N])`: each level takes the next
(size, stride) pair in dimension order, i.e. the two vectors are zipped. -/
def createExplicit (shape strides : List Int) : List (Int × Int) :=
  List.zip shape strides

/-- The row-major constructor chain `Core(shape, manager) :
Super(shape, manager), _size(shape[M-N]),
_stride(Super::getStride() * Super::getSize())`: the base (faster
dimensions) is built first and each level's stride is the next faster
level's stride times its size, the rank-0 base contributing 1 * 1. -/
def createRowMajor : List Int → List (Int × Int)
  | [] => []
  | sz :: rest => (sz, headStride (createRowMajor rest) * headSize (createRowMajor rest))
      :: createRowMajor rest

/-- The column-major constructor chain `Core(shape, stride, manager) :
Super(shape, stride * shape[M-N], manager), _size(shape[M-N]),
_stride(stride)`: the level keeps the incoming stride and passes
`stride * size` on to the base holding the slower dimensions.  The factory
starts the recursion with stride 1. -/
def createColMajor : List Int → Int → List (Int × Int)
  | [], _ => []
  | sz :: rest, stride => (sz, stride) :: createColMajor rest (stride * sz)

/-- `DataOrderEnum`: row-major or column-major canonical stride order. -/
inductive DataOrderEnum
  | ROW_MAJOR
  | COLUMN_MAJOR
deriving DecidableEq, Repr

/-- `Core<N>::create(shape, order, manager)`: dispatches to the row-major
constructor for `ROW_MAJOR` and to the column-major constructor (seeded
with stride 1) otherwise. -/
def createOrdered (shape : List Int) (order : DataOrderEnum) : List (Int × Int) :=
  match order with
  | DataOrderEnum.ROW_MAJOR => createRowMajor shape
  | DataOrderEnum.COLUMN_MAJOR => createColMajor shape 1

/-- An array view (`ArrayBase`): a raw element pointer `_data` (element
units, offset already applied) plus a shared `Core` and, through the Core's
rank-0 base, a Manager. -/
structure ArrayView where
  data : Int
  core : List (Int × Int)
  manager : Option Manager
deriving DecidableEq, Repr

/-- `ArrayBase::getShape()`. -/
def ArrayView.getShape (v : ArrayView) : List Int := fillShape v.core

/-- `ArrayBase::getStrides()`. -/
def ArrayView.getStrides (v : ArrayView) : List Int := fillStrides v.core

/-- The compile-time rank `ND::value` of the view. -/
def ArrayView.rank (v : ArrayView) : Nat := v.core.length

/-- `ArrayBase::getNumElements()`. -/
def ArrayView.getNumElements (v : ArrayView) : Int := getNumElementsCore v.core

/-- `ArrayBase::isEmpty()`: true when the data pointer is null. -/
def ArrayView.isEmpty (v : ArrayView) : Bool := v.data == 0

/-- `ArrayBase::operator[](int n)` for rank N > 1:
`Traits::makeReference(this->_data + n * this->getStride<0>(), this->_core)`.
The returned sub-view of rank N-1 holds the same Core object upcast to
`Core<N-1>` — in this embedding, the tail of the dimension list — and hence
the same Manager; no bounds check is performed on `n`. -/
def ArrayView.subscript (v : ArrayView) (n : Int) : ArrayView :=
  { data := v.data + n * headStride v.core
    core := v.core.tail
    manager := v.manager }

/-- `std::swap(l[a], l[b])` on a vector. -/
def swapAt (l : List Int) (a b : Nat) : List Int :=
  (l.set a (l.getD b 0)).set b (l.getD a 0)

/-- The reversal loop of `ArrayBase::transpose()`:
`for (n=0; n < ND/2; ++n) std::swap(x[n], x[ND-n-1])`. -/
def halfSwap (nd : Nat) (l : List Int) : List Int :=
  (List.range (nd / 2)).foldl (fun acc n => swapAt acc n (nd - n - 1)) l

/-- `ArrayBase::transpose()` (no arguments): swap-reverses copies of the
shape and stride vectors and returns a view with the same data pointer over
`Core::create(shape, strides, getManager())`. -/
def ArrayView.transpose (v : ArrayView) : ArrayView :=
  { data := v.data
    core := createExplicit (halfSwap v.rank v.getShape) (halfSwap v.rank v.getStrides)
    manager := v.manager }

/-- Scalar multiplication of a `Vector<int,N>` by an int: elementwise. -/
def scalarMul (l : List Int) (k : Int) : List Int := l.map (fun x => x * k)

/-- `detail::ComplexExtractor::apply(array, offset)`: the result's data
pointer is `reinterpret_cast<RealElement*>(array.getData()) + offset` — the
complex pointer's address measured in real-sized units (twice the complex
index, since a complex element is exactly two adjacent reals) plus the
offset — over `Core::create(getShape(), getStrides() * 2, getManager())`. -/
def complexExtractorApply (v : ArrayView) (offset : Int) : ArrayView :=
  { data := 2 * v.data + offset
    core := createExplicit v.getShape (scalarMul v.getStrides 2)
    manager := v.manager }

/-- `getReal(array)`: `ComplexExtractor::apply(array, 0)`. -/
def getReal (v : ArrayView) : ArrayView := complexExtractorApply v 0

/-- `getImag(array)`: `ComplexExtractor::apply(array, 1)`. -/
def getImag (v : ArrayView) : ArrayView := complexExtractorApply v 1

/-- `flatten<Nf>(input)`: `newShape = oldShape.first<Nf>()`, then
`for (n=Nf; n<N; ++n) newShape[Nf-1] *= oldShape[n]`;
`newStrides = strides.first<Nf>()` with `newStrides[Nf-1] = 1`; result view
has the same data pointer over `Core::create(newShape, newStrides,
getManager())`. -/
def ArrayView.flatten (nf : Nat) (v : ArrayView) : ArrayView :=
  { data := v.data
    core := createExplicit
      ((List.range' nf (v.rank - nf)).foldl
        (fun ns n => ns.set (nf - 1) (ns.getD (nf - 1) 0 * v.getShape.getD n 0))
        (v.getShape.take nf))
      ((v.getStrides.take nf).set (nf - 1) 1)
    manager := v.manager }

/-- `static_dimension_cast<C_>(array)`: same data pointer and same Core, no
checking; only the compile-time contiguity parameter changes. -/
def staticDimensionCast (v : ArrayView) : ArrayView := v

/-- Modelled from the spec: `Array.h` (holding the default `Array`
constructor used for the failure result) is not among the sources; per spec
section 7 the empty view has a null data pointer and a zero/default Core
(all sizes and strides zero). -/
def emptyArrayView (n : Nat) : ArrayView :=
  { data := 0
    core := List.replicate n (0, 0)
    manager := none }

/-- The `C_ >= 0` loop of `dynamic_dimension_cast`:
`int n = 1; for (i=1; i <= C_; ++i) { if (strides[N-i] != n) return
Array(); n *= shape[N-i]; }`. Returns whether every stride check passed;
the last argument counts the loop iterations still to run (`c + 1 - i`),
so the loop ends exactly when `i` exceeds `C_`. -/
def dynCheckTrailing (shape strides : List Int) (nd : Nat) : Int → Nat → Nat → Bool
  | _, _, 0 => true
  | n, i, remaining + 1 =>
    if strides.getD (nd - i) 0 = n then
      dynCheckTrailing shape strides nd (n * shape.getD (nd - i) 0) (i + 1) remaining
    else false

/-- The `C_ < 0` loop of `dynamic_dimension_cast`:
`int n = 1; for (i=0; i < -C_; ++i) { if (strides[i] != n) return Array();
n *= strides[i]; }`.  Note the source multiplies `n` by `strides[i]`, not
by `shape[i]`.  The last argument counts the loop iterations still to run
(`-C_ - i`), so the loop ends exactly when `i` reaches `-C_`. -/
def dynCheckLeading (strides : List Int) : Int → Nat → Nat → Bool
  | _, _, 0 => true
  | n, i, remaining + 1 =>
    if strides.getD i 0 = n then
      dynCheckLeading strides (n * strides.getD i 0) (i + 1) remaining
    else false

/-- `dynamic_dimension_cast<C_>(array)`: reads the shape and strides, runs
the trailing (`C_ >= 0`) or leading (`C_ < 0`) stride check, and on success
delegates to `static_dimension_cast<C_>`, otherwise returns the
default-constructed empty array. -/
def dynamicDimensionCast (c : Int) (v : ArrayView) : ArrayView :=
  if 0 ≤ c then
    if dynCheckTrailing v.getShape v.getStrides v.rank 1 1 c.toNat then
      staticDimensionCast v
    else emptyArrayView v.rank
  else
    if dynCheckLeading v.getStrides 1 0 (-c).toNat then
      staticDimensionCast v
    else emptyArrayView v.rank

/-- `Core<0>`: the recursion base holds the Manager reference and the
shared reference count. -/
structure Core0 where
  manager : Option Manager
  rc : Int
deriving DecidableEq, Repr

/-- `Core<0>::isUnique()`:
`(_rc == 1) && (_manager->getRC() == 1) && _manager->isUnique()`.  The
source unconditionally dereferences `_manager`, so the embedding is defined
(`some`) exactly when a Manager is attached. -/
def Core0.isUnique (core : Core0) : Option Bool :=
  core.manager.map (fun m => core.rc == 1 && m.rc == 1 && m.unique)

/-- The zero-length specialization `Vector<T,0>`: no elements. -/
structure Vector0 where
deriving DecidableEq, Repr

/-- `Vector<T,0>::Vector()`: the default constructor. -/
def Vector0.default : Vector0 := {}

/-- `Vector<T,0>::Vector(U scalar)`: ignores its argument. -/
def Vector0.ofScalar (scalar : Int) : Vector0 := {}

/-- `Vector<T,0>::Vector(Vector<U,0> const &)`: converting copy constructor. -/
def Vector0.ofVector (other : Vector0) : Vector0 := {}

/-- `Vector<T,0>::sum()`: `return 0;`. -/
def Vector0.sum (v : Vector0) : Int := 0

/-- `Vector<T,0>::product()`: `return 1;`. -/
def Vector0.product (v : Vector0) : Int := 1

/-- `Vector<T,0>::operator==`: `return true;`. -/
def Vector0.eq (v other : Vector0) : Bool := true

/-! ### Basic lemmas about the embedding -/

theorem fillShape_eq_map (c : List (Int × Int)) : fillShape c = c.map Prod.fst := by
  induction c with
  | nil => rfl
  | cons d rest ih => simp [fillShape, ih]

theorem fillStrides_eq_map (c : List (Int × Int)) : fillStrides c = c.map Prod.snd := by
  induction c with
  | nil => rfl
  | cons d rest ih => simp [fillStrides, ih]

theorem length_fillShape (c : List (Int × Int)) : (fillShape c).length = c.length := by
  rw [fillShape_eq_map]; exact List.length_map c Prod.fst

theorem length_fillStrides (c : List (Int × Int)) : (fillStrides c).length = c.length := by
  rw [fillStrides_eq_map]; exact List.length_map c Prod.snd

theorem computeOffset_eq_sum : ∀ index strides : List Int,
    index.length = strides.length →
    computeOffset index strides =
      ∑ d ∈ Finset.range strides.length, index.getD d 0 * strides.getD d 0 := by
  intro index
  induction index with
  | nil =>
    intro strides h
    cases strides with
    | nil => simp [computeOffset]
    | cons s sr => simp at h
  | cons i ir ih =>
    intro strides h
    cases strides with
    | nil => simp at h
    | cons s sr =>
      simp only [List.length_cons, Nat.add_left_inj] at h
      simp only [computeOffset, List.length_cons, Finset.sum_range_succ']
      rw [ih sr h]
      simp [List.getD_cons_succ, List.getD_cons_zero, add_comm]

/-- Claim C2: for every Core of rank N and every valid index vector of rank
N, `computeOffset(index)` equals the sum over dimensions `d` of
`index[d] * stride[d]`, the rank-0 recursion base contributing 0. -/
theorem claim_C2_computeOffset (core : List (Int × Int)) (index : List Int)
    (h : index.length = core.length) :
    computeOffset index (fillStrides core) =
      ∑ d ∈ Finset.range core.length, index.getD d 0 * (fillStrides core).getD d 0 := by
  have hl : index.length = (fillStrides core).length := by rw [length_fillStrides]; exact h
  rw [computeOffset_eq_sum index (fillStrides core) hl, length_fillStrides]

/-- Witness for C2: a rank-2 Core with strides (3,1) at index (1,2):
the offset is 1*3 + 2*1 = 5. -/
theorem claim_C2_witness :
    computeOffset [1, 2] (fillStrides [((2 : Int), (3 : Int)), (3, 1)]) =
      ∑ d ∈ Finset.range ([((2 : Int), (3 : Int)), (3, 1)] : List (Int × Int)).length,
        ([1, 2] : List Int).getD d 0 *
          (fillStrides [((2 : Int), (3 : Int)), (3, 1)]).getD d 0 :=
  claim_C2_computeOffset [((2 : Int), (3 : Int)), (3, 1)] [1, 2] (by decide)

/-! ### The transpose swap loop reverses a vector -/

theorem length_swapAt (l : List Int) (a b : Nat) : (swapAt l a b).length = l.length := by
  simp [swapAt]

theorem swapAt_getD (l : List Int) (a b k : Nat) (ha : a < l.length) (hb : b < l.length) :
    (swapAt l a b).getD k 0 =
      if k = b then l.getD a 0 else if k = a then l.getD b 0 else l.getD k 0 := by
  simp only [swapAt, List.getD_eq_getElem?_getD, List.getElem?_set, List.length_set]
  by_cases hkb : b = k
  · subst hkb
    simp [hb]
  · by_cases hka : a = k
    · subst hka
      simp [ha, hkb, Ne.symm hkb]
    · simp [hkb, hka, Ne.symm hkb, Ne.symm hka]

theorem length_halfSwapFold (l : List Int) (nd : Nat) (r : List Nat) :
    (r.foldl (fun acc n => swapAt acc n (nd - n - 1)) l).length = l.length := by
  induction r generalizing l with
  | nil => rfl
  | cons x xs ih => rw [List.foldl_cons, ih, length_swapAt]

theorem halfSwap_invariant (l : List Int) :
    ∀ m, m ≤ l.length / 2 → ∀ k,
      ((List.range m).foldl (fun acc n => swapAt acc n (l.length - n - 1)) l).getD k 0 =
        if k < m ∨ (l.length - m ≤ k ∧ k < l.length) then l.getD (l.length - 1 - k) 0
        else l.getD k 0 := by
  intro m
  induction m with
  | zero =>
    intro _ k
    rw [List.range_zero, List.foldl_nil, if_neg (by omega)]
  | succ m ih =>
    intro hm k
    have hm' : m ≤ l.length / 2 := by omega
    have hnd : 2 * m + 2 ≤ l.length := by omega
    have hlen : ((List.range m).foldl (fun acc n => swapAt acc n (l.length - n - 1)) l).length
        = l.length := length_halfSwapFold l l.length (List.range m)
    rw [List.range_succ, List.foldl_append, List.foldl_cons, List.foldl_nil]
    rw [swapAt_getD _ m (l.length - m - 1) k (by omega) (by omega)]
    simp only [ih hm']
    split_ifs <;> first | rfl | omega | (congr 1; omega)

theorem halfSwap_eq_reverse (l : List Int) : halfSwap l.length l = l.reverse := by
  have hlen : (halfSwap l.length l).length = l.length :=
    length_halfSwapFold l l.length (List.range (l.length / 2))
  apply List.ext_getElem (by simpa using hlen)
  intro k h1 h2
  have hk : k < l.length := by omega
  have inv := halfSwap_invariant l (l.length / 2) (Nat.le_refl _) k
  have hgoal : (halfSwap l.length l).getD k 0 = l.getD (l.length - 1 - k) 0 := by
    simp only [halfSwap]
    rw [inv]
    split_ifs with h
    · rfl
    · congr 1
      omega
  have e1 : (halfSwap l.length l)[k] = (halfSwap l.length l).getD k 0 :=
    (List.getD_eq_getElem _ 0 h1).symm
  rw [e1, hgoal, List.getD_eq_getElem l 0 (show l.length - 1 - k < l.length by omega)]
  rw [List.getElem_reverse]

theorem length_halfSwap (nd : Nat) (l : List Int) : (halfSwap nd l).length = l.length :=
  length_halfSwapFold l nd (List.range (nd / 2))

theorem length_getShape (v : ArrayView) : v.getShape.length = v.rank :=
  length_fillShape v.core

theorem length_getStrides (v : ArrayView) : v.getStrides.length = v.rank :=
  length_fillStrides v.core

theorem transpose_getShape (v : ArrayView) : v.transpose.getShape = v.getShape.reverse := by
  show fillShape (createExplicit (halfSwap v.rank v.getShape) (halfSwap v.rank v.getStrides))
    = v.getShape.reverse
  rw [fillShape_eq_map, createExplicit, List.map_fst_zip]
  · rw [show v.rank = v.getShape.length from (length_getShape v).symm, halfSwap_eq_reverse]
  · rw [length_halfSwap, length_halfSwap, length_getShape, length_getStrides]

theorem transpose_getStrides (v : ArrayView) :
    v.transpose.getStrides = v.getStrides.reverse := by
  show fillStrides (createExplicit (halfSwap v.rank v.getShape) (halfSwap v.rank v.getStrides))
    = v.getStrides.reverse
  rw [fillStrides_eq_map, createExplicit, List.map_snd_zip]
  · rw [show v.rank = v.getStrides.length from (length_getStrides v).symm, halfSwap_eq_reverse]
  · rw [length_halfSwap, length_halfSwap, length_getShape, length_getStrides]

/-- Claim C3: `transpose()` with no arguments returns a view whose shape and
stride vectors are the reversals of the input's, over the same Manager and
the same data pointer; in particular, for a row-major array of shape (2,3)
with strides (3,1) the transposed view has shape (3,2) and strides (1,3),
and element (1,2) of the original is the element `transpose()[2][1]` (the
two element addresses coincide). -/
theorem claim_C3_transpose :
    (∀ v : ArrayView,
      v.transpose.getShape = v.getShape.reverse ∧
      v.transpose.getStrides = v.getStrides.reverse ∧
      v.transpose.manager = v.manager ∧
      v.transpose.data = v.data) ∧
    ((ArrayView.mk 100 [(2, 3), (3, 1)] (some (Manager.mk 1 true))).transpose.getShape
        = [3, 2] ∧
      (ArrayView.mk 100 [(2, 3), (3, 1)] (some (Manager.mk 1 true))).transpose.getStrides
        = [1, 3] ∧
      (((ArrayView.mk 100 [(2, 3), (3, 1)] (some (Manager.mk 1 true))).transpose.subscript
          2).subscript 1).data
        = (ArrayView.mk 100 [(2, 3), (3, 1)] (some (Manager.mk 1 true))).data +
            computeOffset [1, 2]
              (ArrayView.mk 100 [(2, 3), (3, 1)] (some (Manager.mk 1 true))).getStrides) := by
  constructor
  · intro v
    exact ⟨transpose_getShape v, transpose_getStrides v, rfl, rfl⟩
  · exact ⟨by decide, by decide, by decide⟩

/-- Claim C4: applying `transpose()` twice yields a view whose shape and
stride vectors equal the original's (a round-trip), though the Core is a
freshly created one rather than the identical instance. -/
theorem claim_C4_transpose_involutive (v : ArrayView) :
    v.transpose.transpose.getShape = v.getShape ∧
    v.transpose.transpose.getStrides = v.getStrides := by
  rw [transpose_getShape, transpose_getShape, transpose_getStrides, transpose_getStrides,
    List.reverse_reverse, List.reverse_reverse]
  exact ⟨rfl, rfl⟩

/-! ### Canonical strides of `Core::create(shape, order, manager)` -/

theorem fillShape_createRowMajor (l : List Int) : fillShape (createRowMajor l) = l := by
  induction l with
  | nil => rfl
  | cons sz rest ih => simp [createRowMajor, fillShape, ih]

theorem fillShape_createColMajor (l : List Int) :
    ∀ s : Int, fillShape (createColMajor l s) = l := by
  induction l with
  | nil => intro s; rfl
  | cons sz rest ih => intro s; simp [createColMajor, fillShape, ih]

theorem headStride_mul_headSize_createRowMajor (l : List Int) :
    headStride (createRowMajor l) * headSize (createRowMajor l) = l.prod := by
  induction l with
  | nil => rfl
  | cons sz rest ih =>
    show (headStride (createRowMajor rest) * headSize (createRowMajor rest)) * sz
      = (sz :: rest).prod
    rw [ih, List.prod_cons, mul_comm]

theorem fillStrides_createRowMajor (l : List Int) :
    ∀ d, d < l.length →
      (fillStrides (createRowMajor l)).getD d 0 = (l.drop (d + 1)).prod := by
  induction l with
  | nil => intro d h; simp at h
  | cons sz rest ih =>
    intro d h
    cases d with
    | zero =>
      simp only [createRowMajor, fillStrides, List.getD_cons_zero, List.drop_succ_cons,
        List.drop_zero]
      exact headStride_mul_headSize_createRowMajor rest
    | succ d =>
      simp only [createRowMajor, fillStrides, List.getD_cons_succ, List.drop_succ_cons]
      exact ih d (by simpa using h)

theorem fillStrides_createColMajor (l : List Int) :
    ∀ (s : Int) (d : Nat), d < l.length →
      (fillStrides (createColMajor l s)).getD d 0 = s * (l.take d).prod := by
  induction l with
  | nil => intro s d h; simp at h
  | cons sz rest ih =>
    intro s d h
    cases d with
    | zero => simp [createColMajor, fillStrides]
    | succ d =>
      simp only [createColMajor, fillStrides, List.getD_cons_succ, List.take_succ_cons,
        List.prod_cons]
      rw [ih (s * sz) d (by simpa using h), mul_assoc]

/-- Claim C7: `Core::create(shape, order, manager)` builds canonical
strides: with `ROW_MAJOR` order each dimension's stride is the product of
all later (faster) dimensions' sizes — so the last dimension has stride 1 —
and with `COLUMN_MAJOR` order each dimension's stride is the product of all
earlier (faster) dimensions' sizes; in both orders the stored sizes are
exactly the requested shape. -/
theorem claim_C7_create_canonical (shape : List Int) :
    (∀ order, fillShape (createOrdered shape order) = shape) ∧
    (∀ d, d < shape.length →
      (fillStrides (createOrdered shape DataOrderEnum.ROW_MAJOR)).getD d 0
        = (shape.drop (d + 1)).prod) ∧
    (∀ d, d < shape.length →
      (fillStrides (createOrdered shape DataOrderEnum.COLUMN_MAJOR)).getD d 0
        = (shape.take d).prod) := by
  refine ⟨fun order => ?_, fun d h => ?_, fun d h => ?_⟩
  · cases order with
    | ROW_MAJOR => exact fillShape_createRowMajor shape
    | COLUMN_MAJOR => exact fillShape_createColMajor shape 1
  · exact fillStrides_createRowMajor shape d h
  · rw [show createOrdered shape DataOrderEnum.COLUMN_MAJOR = createColMajor shape 1 from rfl,
      fillStrides_createColMajor shape 1 d h, one_mul]

/-- Witness for C7: shape (2,3) gives row-major strides (3,1) and
column-major strides (1,2). -/
theorem claim_C7_witness :
    (fillStrides (createOrdered [(2 : Int), 3] DataOrderEnum.ROW_MAJOR)).getD 0 0
        = (([(2 : Int), 3]).drop 1).prod ∧
    (fillStrides (createOrdered [(2 : Int), 3] DataOrderEnum.COLUMN_MAJOR)).getD 1 0
        = (([(2 : Int), 3]).take 1).prod :=
  ⟨(claim_C7_create_canonical [(2 : Int), 3]).2.1 0 (by decide),
   (claim_C7_create_canonical [(2 : Int), 3]).2.2 1 (by decide)⟩

/-! ### Sub-array indexing -/

theorem headStride_eq_getStrides_head (v : ArrayView) (h : v.core ≠ []) :
    headStride v.core = v.getStrides.getD 0 0 := by
  cases hc : v.core with
  | nil => exact absurd hc h
  | cons d rest => simp [ArrayView.getStrides, hc, headStride, fillStrides]

/-- Claim C8: `operator[](n)` on a view of rank N > 1 returns a sub-view of
rank N-1 over the same Core object (in this embedding, the `Core<N-1>` base
subobject, i.e. the tail of the dimension list) and the same Manager, with
the data pointer advanced by `n * stride(dimension 0)`; `n` is arbitrary —
no bounds check constrains it. -/
theorem claim_C8_subscript (v : ArrayView) (n : Int) (h : 1 < v.rank) :
    (v.subscript n).data = v.data + n * v.getStrides.getD 0 0 ∧
    (v.subscript n).core = v.core.tail ∧
    (v.subscript n).manager = v.manager ∧
    (v.subscript n).rank = v.rank - 1 := by
  have hne : v.core ≠ [] := by
    intro hnil
    rw [ArrayView.rank, hnil] at h
    simp at h
  refine ⟨?_, rfl, rfl, ?_⟩
  · show v.data + n * headStride v.core = v.data + n * v.getStrides.getD 0 0
    rw [headStride_eq_getStrides_head v hne]
  · show v.core.tail.length = v.core.length - 1
    exact List.length_tail v.core

/-- Witness for C8: indexing a rank-2 view with n = 5 (out of range — no
bounds check) advances the data pointer by 5 * 3. -/
theorem claim_C8_witness :
    (1 : Nat) < (ArrayView.mk 100 [(2, 3), (3, 1)] none).rank ∧
    ((ArrayView.mk 100 [(2, 3), (3, 1)] none).subscript 5).data
      = (ArrayView.mk 100 [(2, 3), (3, 1)] none).data +
          5 * (ArrayView.mk 100 [(2, 3), (3, 1)] none).getStrides.getD 0 0 :=
  ⟨by decide, (claim_C8_subscript (ArrayView.mk 100 [(2, 3), (3, 1)] none) 5 (by decide)).1⟩

/-! ### Real/imaginary component extraction -/

theorem complexExtractorApply_getShape (v : ArrayView) (offset : Int) :
    (complexExtractorApply v offset).getShape = v.getShape := by
  show fillShape (createExplicit v.getShape (scalarMul v.getStrides 2)) = v.getShape
  rw [fillShape_eq_map, createExplicit, List.map_fst_zip]
  simp [scalarMul, length_getShape, length_getStrides]

theorem complexExtractorApply_getStrides (v : ArrayView) (offset : Int) (d : Nat) :
    (complexExtractorApply v offset).getStrides.getD d 0 = 2 * v.getStrides.getD d 0 := by
  show (fillStrides (createExplicit v.getShape (scalarMul v.getStrides 2))).getD d 0 = _
  rw [fillStrides_eq_map, createExplicit, List.map_snd_zip v.getShape
    (scalarMul v.getStrides 2) (by simp [scalarMul, length_getShape, length_getStrides])]
  simp only [scalarMul, List.getD_eq_getElem?_getD, List.getElem?_map]
  cases hx : v.getStrides[d]? with
  | none => simp
  | some x => simp [mul_comm]

/-- Claim C6: `getReal` and `getImag` on a complex-valued view produce
views with the same shape, every stride doubled, the same Manager, and a
data pointer equal to the input's pointer reinterpreted in real-component
units (two per complex element) offset by 0 (`getReal`) or 1 (`getImag`). -/
theorem claim_C6_getReal_getImag (v : ArrayView) :
    (getReal v).getShape = v.getShape ∧
    (getImag v).getShape = v.getShape ∧
    (∀ d, (getReal v).getStrides.getD d 0 = 2 * v.getStrides.getD d 0) ∧
    (∀ d, (getImag v).getStrides.getD d 0 = 2 * v.getStrides.getD d 0) ∧
    (getReal v).data = 2 * v.data + 0 ∧
    (getImag v).data = 2 * v.data + 1 ∧
    (getReal v).manager = v.manager ∧
    (getImag v).manager = v.manager :=
  ⟨complexExtractorApply_getShape v 0, complexExtractorApply_getShape v 1,
   fun d => complexExtractorApply_getStrides v 0 d,
   fun d => complexExtractorApply_getStrides v 1 d,
   rfl, rfl, rfl, rfl⟩

/-! ### Flatten -/

theorem set_getD_self (l : List Int) (i : Nat) : l.set i (l.getD i 0) = l := by
  apply List.ext_getElem?
  intro n
  rw [List.getElem?_set]
  split_ifs with h1 h2
  · subst h1
    rw [List.getD_eq_getElem l 0 h2, List.getElem?_eq_getElem h2]
  · subst h1
    rw [List.getElem?_eq_none (by omega)]
  · rfl

theorem foldl_mul_set (f : Nat → Int) :
    ∀ (idxs : List Nat) (ns : List Int) (i : Nat), i < ns.length →
      idxs.foldl (fun acc n => acc.set i (acc.getD i 0 * f n)) ns
        = ns.set i (ns.getD i 0 * (idxs.map f).prod) := by
  intro idxs
  induction idxs with
  | nil =>
    intro ns i h
    simp only [List.foldl_nil, List.map_nil, List.prod_nil, mul_one]
    exact (set_getD_self ns i).symm
  | cons x xs ih =>
    intro ns i h
    have hlen : i < (ns.set i (ns.getD i 0 * f x)).length := by simpa using h
    rw [List.foldl_cons, ih (ns.set i (ns.getD i 0 * f x)) i hlen]
    have hg : (ns.set i (ns.getD i 0 * f x)).getD i 0 = ns.getD i 0 * f x := by
      rw [List.getD_eq_getElem _ 0 hlen, List.getElem_set_self]
    rw [hg, List.set_set, List.map_cons, List.prod_cons, mul_assoc]

theorem range'_map_getD (l : List Int) :
    ∀ b a : Nat, a + b = l.length →
      (List.range' a b).map (fun n => l.getD n 0) = l.drop a := by
  intro b
  induction b with
  | zero =>
    intro a h
    rw [List.range'_zero, List.map_nil, List.drop_eq_nil_of_le (by omega)]
  | succ b ih =>
    intro a h
    have ha : a < l.length := by omega
    rw [List.range'_succ, List.map_cons, ih (a + 1) (by omega),
      List.drop_eq_getElem_cons ha, List.getD_eq_getElem l 0 ha]

theorem getNumElementsCore_eq_prod (c : List (Int × Int)) :
    getNumElementsCore c = (fillShape c).prod := by
  induction c with
  | nil => rfl
  | cons d rest ih => simp [getNumElementsCore, fillShape, ih]

/-- Row-major contiguity of the trailing `k` dimensions: each of the last
`k` strides equals the product of the sizes of all faster (later)
dimensions.  This is what the compile-time contiguity parameter `C ≥ k`
promises for a view. -/
def rowMajorContiguous (shape strides : List Int) (k : Nat) : Prop :=
  ∀ i < k + 1, 1 ≤ i →
    strides.getD (shape.length - i) 0 = (shape.drop (shape.length - i + 1)).prod

instance (shape strides : List Int) (k : Nat) :
    Decidable (rowMajorContiguous shape strides k) := by
  unfold rowMajorContiguous
  infer_instance

theorem flatten_getShape (v : ArrayView) (nf : Nat) (h1 : 1 ≤ nf) (h2 : nf ≤ v.rank) :
    (v.flatten nf).getShape
      = (v.getShape.take nf).set (nf - 1)
          (v.getShape.getD (nf - 1) 0 * (v.getShape.drop nf).prod) := by
  have hrank : v.getShape.length = v.rank := length_getShape v
  have hrank' : v.getStrides.length = v.rank := length_getStrides v
  have hlenTake : (v.getShape.take nf).length = nf := by
    rw [List.length_take]
    omega
  have hi : nf - 1 < (v.getShape.take nf).length := by omega
  show fillShape (createExplicit
      ((List.range' nf (v.rank - nf)).foldl
        (fun ns n => ns.set (nf - 1) (ns.getD (nf - 1) 0 * v.getShape.getD n 0))
        (v.getShape.take nf))
      ((v.getStrides.take nf).set (nf - 1) 1)) = _
  rw [fillShape_eq_map, createExplicit,
    foldl_mul_set (fun n => v.getShape.getD n 0) (List.range' nf (v.rank - nf))
      (v.getShape.take nf) (nf - 1) hi,
    range'_map_getD v.getShape (v.rank - nf) nf (by omega)]
  have hgd : (v.getShape.take nf).getD (nf - 1) 0 = v.getShape.getD (nf - 1) 0 := by
    rw [List.getD_eq_getElem?_getD, List.getD_eq_getElem?_getD,
      List.getElem?_take_of_lt (show nf - 1 < nf by omega)]
  rw [hgd, List.map_fst_zip]
  rw [List.length_set, List.length_set, List.length_take, List.length_take, hrank, hrank']

theorem flatten_getStrides (v : ArrayView) (nf : Nat) (h1 : 1 ≤ nf) (h2 : nf ≤ v.rank) :
    (v.flatten nf).getStrides = (v.getStrides.take nf).set (nf - 1) 1 := by
  have hrank : v.getShape.length = v.rank := length_getShape v
  have hrank' : v.getStrides.length = v.rank := length_getStrides v
  have hi : nf - 1 < (v.getShape.take nf).length := by
    rw [List.length_take]
    omega
  show fillStrides (createExplicit
      ((List.range' nf (v.rank - nf)).foldl
        (fun ns n => ns.set (nf - 1) (ns.getD (nf - 1) 0 * v.getShape.getD n 0))
        (v.getShape.take nf))
      ((v.getStrides.take nf).set (nf - 1) 1)) = _
  rw [fillStrides_eq_map, createExplicit,
    foldl_mul_set (fun n => v.getShape.getD n 0) (List.range' nf (v.rank - nf))
      (v.getShape.take nf) (nf - 1) hi,
    List.map_snd_zip]
  rw [List.length_set, List.length_set, List.length_take, List.length_take, hrank, hrank']

/-- Claim C5: `flatten<Nf>` on a view whose trailing dimensions are
row-major-contiguous (as the compile-time contiguity parameter
`C ≥ N - Nf + 1` requires) yields a rank-`Nf` view whose merged last
dimension has size equal to the product of the merged original trailing
sizes, whose last-dimension stride is 1, and whose total element count
equals the original's. -/
theorem claim_C5_flatten (v : ArrayView) (nf : Nat) (h1 : 1 ≤ nf) (h2 : nf ≤ v.rank)
    (hc : rowMajorContiguous v.getShape v.getStrides (v.rank - nf + 1)) :
    (v.flatten nf).rank = nf ∧
    (v.flatten nf).getShape.getD (nf - 1) 0 = (v.getShape.drop (nf - 1)).prod ∧
    (v.flatten nf).getStrides.getD (nf - 1) 0 = 1 ∧
    (v.flatten nf).getNumElements = v.getNumElements := by
  have hrank : v.getShape.length = v.rank := length_getShape v
  have hrank' : v.getStrides.length = v.rank := length_getStrides v
  have hs := flatten_getShape v nf h1 h2
  have hst := flatten_getStrides v nf h1 h2
  have hlenTake : (v.getShape.take nf).length = nf := by
    rw [List.length_take]
    omega
  have hlenTake' : (v.getStrides.take nf).length = nf := by
    rw [List.length_take]
    omega
  have hnf1 : nf - 1 < v.getShape.length := by omega
  have hdrop : v.getShape.drop (nf - 1) = v.getShape[nf - 1] :: v.getShape.drop nf := by
    rw [List.drop_eq_getElem_cons hnf1, show nf - 1 + 1 = nf by omega]
  refine ⟨?_, ?_, ?_, ?_⟩
  · rw [← length_getShape (v.flatten nf), hs, List.length_set, hlenTake]
  · rw [hs, List.getD_eq_getElem _ 0 (by rw [List.length_set]; omega),
      List.getElem_set_self, hdrop, List.prod_cons,
      List.getD_eq_getElem _ 0 hnf1]
  · rw [hst, List.getD_eq_getElem _ 0 (by rw [List.length_set]; omega),
      List.getElem_set_self]
  · show getNumElementsCore (v.flatten nf).core = getNumElementsCore v.core
    rw [getNumElementsCore_eq_prod, getNumElementsCore_eq_prod]
    show ((v.flatten nf).getShape).prod = (v.getShape).prod
    rw [hs, List.prod_set, if_pos (by omega)]
    simp only [show nf - 1 + 1 = nf from by omega, show 1 + (nf - 1) = nf from by omega]
    rw [List.take_take, Nat.min_eq_left (by omega),
      List.drop_eq_nil_of_le (le_of_eq hlenTake), List.prod_nil, mul_one,
      List.getD_eq_getElem _ 0 hnf1,
      ← List.prod_take_mul_prod_drop v.getShape (nf - 1), hdrop, List.prod_cons]

/-- Witness for C5: flattening a contiguous (2,3) view with strides (3,1)
to rank 1 gives shape (6), stride 1, and 6 elements. -/
theorem claim_C5_witness :
    ((1 : Nat) ≤ 1 ∧ (1 : Nat) ≤ (ArrayView.mk 100 [(2, 3), (3, 1)] none).rank ∧
      rowMajorContiguous (ArrayView.mk 100 [(2, 3), (3, 1)] none).getShape
        (ArrayView.mk 100 [(2, 3), (3, 1)] none).getStrides
        ((ArrayView.mk 100 [(2, 3), (3, 1)] none).rank - 1 + 1)) ∧
    (((ArrayView.mk 100 [(2, 3), (3, 1)] none).flatten 1).rank = 1 ∧
      ((ArrayView.mk 100 [(2, 3), (3, 1)] none).flatten 1).getShape.getD 0 0
        = ((ArrayView.mk 100 [(2, 3), (3, 1)] none).getShape.drop 0).prod ∧
      ((ArrayView.mk 100 [(2, 3), (3, 1)] none).flatten 1).getStrides.getD 0 0 = 1 ∧
      ((ArrayView.mk 100 [(2, 3), (3, 1)] none).flatten 1).getNumElements
        = (ArrayView.mk 100 [(2, 3), (3, 1)] none).getNumElements) :=
  ⟨⟨by decide, by decide, by decide⟩,
    claim_C5_flatten (ArrayView.mk 100 [(2, 3), (3, 1)] none) 1
      (by decide) (by decide) (by decide)⟩

/-! ### Zero-length vectors -/

/-- Claim C9: for the zero-length specialization `Vector<T,0>`, `sum()`
returns 0 and `product()` returns 1 regardless of which constructor (and
which constructor arguments) produced the vector, and equality comparison
of any two zero-length vectors is always true. -/
theorem claim_C9_vector0 (u : Int) (v w : Vector0) :
    v.sum = 0 ∧ v.product = 1 ∧ Vector0.eq v w = true ∧
    (Vector0.ofScalar u).sum = 0 ∧ (Vector0.ofScalar u).product = 1 ∧
    Vector0.default.sum = 0 ∧ Vector0.default.product = 1 ∧
    (Vector0.ofVector v).sum = 0 ∧ (Vector0.ofVector v).product = 1 :=
  ⟨rfl, rfl, rfl, rfl, rfl, rfl, rfl, rfl, rfl⟩

/-! ### Core uniqueness -/

/-- Claim C10: `Core<0>::isUnique()` returns true if and only if the Core's
own reference count is 1, the attached Manager's reference count is 1, and
the Manager reports itself unique; in particular a Core whose own count
exceeds 1 is never reported unique even when the Manager alone is uniquely
held. -/
theorem claim_C10_isUnique (core : Core0) (m : Manager) (h : core.manager = some m) :
    (core.isUnique = some true ↔ core.rc = 1 ∧ m.rc = 1 ∧ m.unique = true) ∧
    (core.rc ≠ 1 → core.isUnique = some false) := by
  constructor
  · rw [Core0.isUnique, h, Option.map_some']
    constructor
    · intro hsome
      have hb : (core.rc == 1 && m.rc == 1 && m.unique) = true := Option.some.inj hsome
      simp only [Bool.and_eq_true, beq_iff_eq] at hb
      exact ⟨hb.1.1, hb.1.2, hb.2⟩
    · intro ⟨h1, h2, h3⟩
      rw [h1, h2, h3]
      rfl
  · intro hne
    rw [Core0.isUnique, h, Option.map_some']
    have : (core.rc == 1) = false := by
      simp [hne]
    rw [this, Bool.false_and, Bool.false_and]

/-- Witness for C10: a Core holding the sole reference (count 1) to a
Manager with count 1 reporting itself unique is reported unique. -/
theorem claim_C10_witness :
    (Core0.mk (some (Manager.mk 1 true)) 1).isUnique = some true ↔
      (Core0.mk (some (Manager.mk 1 true)) 1).rc = 1 ∧ (Manager.mk 1 true).rc = 1 ∧
        (Manager.mk 1 true).unique = true :=
  (claim_C10_isUnique (Core0.mk (some (Manager.mk 1 true)) 1) (Manager.mk 1 true) rfl).1

/-! ### Dynamic dimension cast -/

/-- Claim C1 evaluated at a concrete failing input: the view with data
pointer 100, shape (2,3) and strides (1,2) is genuinely
column-major-contiguous in its 2 leading dimensions — stride 0 is 1 (the
empty running product) and stride 1 equals size 0 — so by the claim
`dynamic_dimension_cast<-2>` should return the view unchanged and
non-empty; the code instead multiplies the running product by `strides[i]`
where the trailing branch uses `shape[N-i]`, rejects the second check
(stride 2 against running product 1), and returns the empty view with a
null data pointer. -/
theorem claim_C1_dynamic_dimension_cast_leading_bug :
    ((ArrayView.mk 100 [(2, 1), (3, 2)] none).getStrides.getD 0 0 = 1 ∧
      (ArrayView.mk 100 [(2, 1), (3, 2)] none).getStrides.getD 1 0
        = (ArrayView.mk 100 [(2, 1), (3, 2)] none).getShape.getD 0 0) ∧
    dynamicDimensionCast (-2) (ArrayView.mk 100 [(2, 1), (3, 2)] none)
      = emptyArrayView 2 ∧
    (emptyArrayView 2).data = 0 ∧
    ¬(ArrayView.mk 100 [(2, 1), (3, 2)] none).isEmpty = true ∧
    (dynamicDimensionCast (-2) (ArrayView.mk 100 [(2, 1), (3, 2)] none)).isEmpty = true := by
  refine ⟨⟨by decide, by decide⟩, by decide, by decide, by decide, by decide⟩

end NdArray
